import Mathlib

/-!
Shallow embedding of the permission-guarded hierarchical key-value store
(`Store` in the repository's main source file, plus the JSON flattening
utility of `src/json-types.ts`), together with theorems settling the
frozen claims about its natural-language specification.

Modelling conventions:
* TypeScript `Map<string, T>` is modelled as an association list
  `List (String × T)` with JS `Map.get` / `Map.set` semantics
  (`mapGet` / `mapSet`); a real `Map` never holds duplicate keys, and
  `mapSet` replaces the first occurrence in place, preserving insertion
  order, or appends a fresh key at the end, exactly as `Map.set` does.
* JS `path.split(':')` and `segments.join(':')` are modelled by the
  structurally recursive `splitPath` / `joinPath` below; the lemmas
  `splitColonChars_join` and `splitPath_joinPath` establish the
  split/join round trip used implicitly by the source when it recurses
  via `pathParts.slice(1).join(':')` and the callee re-splits.
* A deferred value `() => StoreResult` is a pure zero-argument closure;
  in a pure embedding such a closure is determined by the single result
  it yields, so it is modelled as `Entry.func r` where invoking it
  returns `r`.
* A thrown JS `Error` is modelled as a `StoreErr` carrying the thrown
  message; the two constructors follow the spec's classification of the
  messages into `InvalidPathError` and `AccessDeniedError`.
* Mutation is modelled by explicit state passing: an operation returns
  the store tree as it stands when the operation finishes, together
  with `Option StoreErr` (`none` = normal return, `some e` = threw `e`).
  Because the parent's entry map aliases an existing child object in
  JS, a recursive write into an existing child writes the child's final
  state back into the parent even when the recursion throws.
* `createInstance` walks the prototype chain to instantiate the
  most-derived class of `this`; the embedding captures a concrete
  class by its declared `Schema` (default policy and decorated
  per-key permissions, as loaded by the constructor from metadata), so
  `createInstance` returns a fresh empty store of the same schema.
-/

/-- JSON primitive values: string, number, boolean, null
(numbers are modelled as integers; every number in the claims is one). -/
inductive JSONPrimitive where
  | str (s : String)
  | num (n : Int)
  | bool (b : Bool)
  | null
  deriving DecidableEq

/-- JSON values: primitives, arrays, and objects (ordered field lists). -/
inductive JSONValue where
  | prim (p : JSONPrimitive)
  | arr (xs : List JSONValue)
  | obj (fs : List (String × JSONValue))

/-- JS `Map.get`: the value at the first occurrence of the key, if any. -/
def mapGet (m : List (String × α)) (k : String) : Option α :=
  (m.find? (fun p => p.1 == k)).map (fun p => p.2)

/-- JS `Map.set` (also JS object assignment `o[k] = v`): replace the value at
an existing key in place, else append the new key at the end. -/
def mapSet : List (String × α) → String → α → List (String × α)
  | [], k, v => [(k, v)]
  | p :: rest, k, v => if p.1 == k then (k, v) :: rest else p :: mapSet rest k v

/-- Repeated `Map.set`, as performed by a `forEach` copying one map into
another (`subPaths.forEach((value, path) => result.set(path, value))`). -/
def mapSetAll (m : List (String × α)) (adds : List (String × α)) : List (String × α) :=
  adds.foldl (fun acc kv => mapSet acc kv.1 kv.2) m

/-- Character-level JS `split(':')`: cut the character list at every colon,
keeping empty pieces (so the empty input yields one empty segment). -/
def splitColonChars : List Char → List (List Char)
  | [] => [[]]
  | c :: rest =>
    let r := splitColonChars rest
    if c = ':' then [] :: r
    else (c :: r.headD []) :: r.tail

/-- Character-level JS `Array.join(':')`. -/
def joinColonChars : List (List Char) → List Char
  | [] => []
  | [g] => g
  | g :: rest => g ++ ':' :: joinColonChars rest

/-- Models JS `path.split(':')` on strings. -/
def splitPath (s : String) : List String :=
  (splitColonChars s.data).map (fun cs => String.mk cs)

/-- Models JS `segments.join(':')` on strings. -/
def joinPath (parts : List String) : String :=
  String.mk (joinColonChars (parts.map String.data))

mutual
/-- Flattening of a JSON value into a map from colon-joined leaf path to leaf
primitive (`getAllPathFromJsonValue` of `src/json-types.ts`); the result map
is built with `Map.set`, the array walk stringifies decimal indices from 0. -/
def getAllPathFromJsonValue (obj : JSONValue) (currentPath : List String) :
    List (String × JSONPrimitive) :=
  match obj with
  | .prim p => [(joinPath currentPath, p)]
  | .arr xs => jsonPathsArr [] xs currentPath 0
  | .obj fs => jsonPathsObj [] fs currentPath

def jsonPathsArr (result : List (String × JSONPrimitive)) (xs : List JSONValue)
    (cur : List String) (i : Nat) : List (String × JSONPrimitive) :=
  match xs with
  | [] => result
  | x :: rest =>
    jsonPathsArr (mapSetAll result (getAllPathFromJsonValue x (cur ++ [toString i])))
      rest cur (i + 1)

def jsonPathsObj (result : List (String × JSONPrimitive)) (fs : List (String × JSONValue))
    (cur : List String) : List (String × JSONPrimitive) :=
  match fs with
  | [] => result
  | (k, v) :: rest =>
    jsonPathsObj (mapSetAll result (getAllPathFromJsonValue v (cur ++ [k]))) rest cur
end

/-- Permission policies: the strings r, w, rw, none of the source. -/
inductive Permission where
  | r
  | w
  | rw
  | none
  deriving DecidableEq

/-- JS `permission.includes` applied to the character r: true exactly for the
permission strings r and rw. -/
def includesR : Permission → Bool
  | .r => true
  | .rw => true
  | _ => false

/-- JS `permission.includes` applied to the character w: true exactly for the
permission strings w and rw. -/
def includesW : Permission → Bool
  | .w => true
  | .rw => true
  | _ => false

/-- Declared schema of a concrete Store class: the class's initial default
policy and the per-key permissions registered by its field decorators,
loaded by the constructor from reflection metadata. -/
structure Schema where
  defaultPolicy : Permission
  permissions : List (String × Permission)

mutual
/-- A store node: default policy, permission overrides, entry map, and the
schema of its concrete class (used by `createInstance`). -/
inductive Store where
  | mk : Permission → List (String × Permission) → List (String × Entry) → Schema → Store

/-- A value held in `storeEntries`: either a direct `StoreResult` or a
deferred zero-argument closure yielding a `StoreResult` when invoked. -/
inductive Entry where
  | val : StoreResult → Entry
  | func : StoreResult → Entry

/-- `StoreResult` of the source: a child store, a JSON primitive, or
undefined. -/
inductive StoreResult where
  | prim : JSONPrimitive → StoreResult
  | undef : StoreResult
  | store : Store → StoreResult
end

def Store.defaultPolicy : Store → Permission
  | .mk d _ _ _ => d

def Store.permissionMap : Store → List (String × Permission)
  | .mk _ pm _ _ => pm

def Store.storeEntries : Store → List (String × Entry)
  | .mk _ _ es _ => es

def Store.schema : Store → Schema
  | .mk _ _ _ sc => sc

/-- `getPermission`: the override for the key if present, else the default
policy (`this.permissionMap.get(key) ?? this.defaultPolicy`). -/
def Store.getPermission (s : Store) (k : String) : Permission :=
  (mapGet s.permissionMap k).getD s.defaultPolicy

/-- `setPermission`: insert or replace a per-key permission override. -/
def Store.setPermission (s : Store) (k : String) (p : Permission) : Store :=
  match s with
  | .mk d pm es sc => .mk d (mapSet pm k p) es sc

def Store.allowedToRead (s : Store) (k : String) : Bool :=
  includesR (s.getPermission k)

def Store.allowedToWrite (s : Store) (k : String) : Bool :=
  includesW (s.getPermission k)

/-- `createInstance`: walk the prototype chain to the most-derived class and
build a fresh instance of it; its constructor initialises the default policy
and permission map from the class schema, with empty entries. -/
def Store.createInstance (s : Store) : Store :=
  .mk s.schema.defaultPolicy s.schema.permissions [] s.schema

/-- Replace the whole entry map of a store, leaving policy data untouched. -/
def Store.withEntries : Store → List (String × Entry) → Store
  | .mk d pm _ sc, es => .mk d pm es sc

/-- One `this.storeEntries.set(key, entry)` call. -/
def Store.setEntry (s : Store) (k : String) (e : Entry) : Store :=
  s.withEntries (mapSet s.storeEntries k e)

/-- Errors thrown by read/write, classified as in the spec: `invalidPath`
for the null-path and failed-traversal errors, `accessDenied` for the
permission errors; each carries the thrown message. -/
inductive StoreErr where
  | invalidPath (msg : String)
  | accessDenied (msg : String)
  deriving DecidableEq

/-- Body of `read` after the null check and the split, recursing on the
segment list (the source joins `pathParts.slice(1)` with colons and the
callee re-splits it, which is the identity on the segment list by
`splitPath_joinPath` since split segments never contain a colon):
a multi-segment path requires the head entry to be a store or a closure
yielding a store, else the traversal error is thrown; a single segment is
checked against the read permission and the entry (a closure being
invoked) is returned, an absent key reading as undefined. -/
def readGo : Store → List String → Except StoreErr StoreResult
  | _, [] => .ok .undef
  | s, [k] =>
    if s.allowedToRead k then
      match mapGet s.storeEntries k with
      | some (.val r) => .ok r
      | some (.func r) => .ok r
      | Option.none => .ok .undef
    else .error (.accessDenied ("Read access denied for property: " ++ k))
  | s, k :: rest =>
    match mapGet s.storeEntries k with
    | some (.val (.store c)) => readGo c rest
    | some (.func (.store c)) => readGo c rest
    | _ => .error (.invalidPath "The path given is incorrect")

/-- `read(path)`: `none` models the null path. -/
def Store.read (s : Store) (path : Option String) : Except StoreErr StoreResult :=
  match path with
  | Option.none => .error (.invalidPath "Null path forbidden")
  | some p => readGo s (splitPath p)

/-- Traversal part of `write`, parameterised by the single-segment action
(the source's `write` dispatches on the value kind only once the path is
down to one segment, so the carried value is abstracted into `leaf`).
On a multi-segment path: an entry that is a `Store` instance is recursed
into, and written back afterwards — also when the recursion throws, since
the parent map aliases the child object in JS; any other entry (absent,
primitive, closure) is replaced by a fresh `createInstance` store if the
head key is writable (else the access error is thrown), and that fresh
store is attached only after the recursive write into it succeeded. -/
def writeGo (leaf : Store → String → Store × Option StoreErr) :
    Store → List String → Store × Option StoreErr
  | s, [] => (s, Option.none)
  | s, [k] => leaf s k
  | s, k :: rest =>
    match mapGet s.storeEntries k with
    | some (.val (.store c)) =>
      let r := writeGo leaf c rest
      (s.setEntry k (.val (.store r.1)), r.2)
    | _ =>
      if s.allowedToWrite k then
        let r := writeGo leaf s.createInstance rest
        match r.2 with
        | some e => (s, some e)
        | Option.none => (s.setEntry k (.val (.store r.1)), Option.none)
      else (s, some (.accessDenied ("Write access denied for property: " ++ k)))

/-- Single-segment write of a directly storable value (closure, store
instance, primitive, or undefined): permission check, then one map set. -/
def writeLeafDirect (e : Entry) (s : Store) (k : String) : Store × Option StoreErr :=
  if s.allowedToWrite k then (s.setEntry k e, Option.none)
  else (s, some (.accessDenied ("Write access denied for property: " ++ k)))

/-- The `pathValueMap.forEach((val, key) => store.write(key, val))` loop of
the composite branch: write each flattened primitive pair in map order,
a thrown error aborting the remaining pairs. -/
def writePairs : Store → List (String × JSONPrimitive) → Store × Option StoreErr
  | s, [] => (s, Option.none)
  | s, (k, p) :: rest =>
    let r := writeGo (writeLeafDirect (.val (.prim p))) s (splitPath k)
    match r.2 with
    | some e => (r.1, some e)
    | Option.none => writePairs r.1 rest

/-- Single-segment write of a composite (object or array) value: permission
check, then flatten, write every flattened pair into a fresh
`createInstance` store, and attach that store under the key only once all
pair writes succeeded. -/
def writeLeafComposite (j : JSONValue) (s : Store) (k : String) : Store × Option StoreErr :=
  if s.allowedToWrite k then
    let r := writePairs s.createInstance (getAllPathFromJsonValue j [])
    match r.2 with
    | some e => (s, some e)
    | Option.none => (s.setEntry k (.val (.store r.1)), Option.none)
  else (s, some (.accessDenied ("Write access denied for property: " ++ k)))

/-- `StoreValue` of the source: everything `write` accepts — a composite
JSON object or array, a direct `StoreResult`, or a deferred closure. -/
inductive StoreValue where
  | prim (p : JSONPrimitive)
  | undef
  | store (s : Store)
  | func (r : StoreResult)
  | obj (fs : List (String × JSONValue))
  | arr (xs : List JSONValue)

/-- The source's single-segment value dispatch (`typeof value ===
'function' || value instanceof Store || ... ? set directly : expand the
composite`), expressed per `StoreValue` constructor. -/
def leafFor : StoreValue → Store → String → Store × Option StoreErr
  | .prim p => writeLeafDirect (.val (.prim p))
  | .undef => writeLeafDirect (.val .undef)
  | .store c => writeLeafDirect (.val (.store c))
  | .func r => writeLeafDirect (.func r)
  | .obj fs => writeLeafComposite (.obj fs)
  | .arr xs => writeLeafComposite (.arr xs)

/-- `write(path, value)`: `none` models the null path; the result is the
store tree as the call leaves it, with the error it threw, if any. -/
def Store.write (s : Store) (path : Option String) (v : StoreValue) :
    Store × Option StoreErr :=
  match path with
  | Option.none => (s, some (.invalidPath "Null path forbidden"))
  | some p => writeGo (leafFor v) s (splitPath p)

/-- JS truthiness of a JSON primitive: false for `null`, `false`, `0` and
the empty string. -/
def jsTruthy : JSONPrimitive → Bool
  | .str s => s != ""
  | .num n => n != 0
  | .bool b => b
  | .null => false

mutual
/-- `entries()`: serialize the readable part of the tree. The iteration
follows `storeEntries` order (a `Map` never repeats a key, so building the
result object by successive assignment is the same as collecting the
produced fields in order). -/
def Store.entries : Store → List (String × JSONValue)
  | .mk d pm es _ => entriesList d pm es

def entriesList (d : Permission) (pm : List (String × Permission)) :
    List (String × Entry) → List (String × JSONValue)
  | [] => []
  | (k, e) :: rest =>
    if includesR ((mapGet pm k).getD d) then
      match entryOut e with
      | some jv => (k, jv) :: entriesList d pm rest
      | Option.none => entriesList d pm rest
    else entriesList d pm rest

/-- The per-entry body of the `entries()` loop: a store serializes
recursively; a closure is invoked, its result serializing recursively when
it is a store; otherwise the (invoked or raw) value is kept only when JS
finds it truthy — `undefined`, `null`, `0`, `false` and the empty string
are all skipped by the `else if (value)` guards. -/
def entryOut : Entry → Option JSONValue
  | .val (.store c) => some (.obj c.entries)
  | .func (.store c) => some (.obj c.entries)
  | .func (.prim p) => if jsTruthy p then some (.prim p) else Option.none
  | .func .undef => Option.none
  | .val (.prim p) => if jsTruthy p then some (.prim p) else Option.none
  | .val .undef => Option.none
end

/-- The base `Store` class's schema: default policy rw, no decorated keys. -/
def baseSchema : Schema := ⟨.rw, []⟩

/-- A freshly constructed base-class store, `new Store()`. -/
def newStore : Store := .mk .rw [] [] baseSchema

/-- The store the write traversal descends into at key `k`: the existing
entry when that entry is directly a store instance, else the fresh store
auto-vivification creates (`write` never invokes deferred closures). -/
def childAfter (s : Store) (k : String) : Store :=
  match mapGet s.storeEntries k with
  | some (.val (.store c)) => c
  | _ => s.createInstance

/-- The head entry as the read traversal resolves it: a child store held
directly, or yielded by a deferred closure. -/
def resolvedChild (s : Store) (k : String) : Option Store :=
  match mapGet s.storeEntries k with
  | some (.val (.store c)) => some c
  | some (.func (.store c)) => some c
  | _ => Option.none

/-- Every segment of the path is writable at the store that consults it
while a write descends along `childAfter`. -/
def writableAlong : Store → List String → Bool
  | _, [] => true
  | s, [k] => s.allowedToWrite k
  | s, k :: rest => s.allowedToWrite k && writableAlong (childAfter s k) rest

/-- The terminal segment is readable at the terminal store of the descent. -/
def readableAtEnd : Store → List String → Bool
  | _, [] => true
  | s, [k] => s.allowedToRead k
  | s, k :: rest => readableAtEnd (childAfter s k) rest

/-! Basic lemmas about the path algebra and the map model. -/

theorem splitColonChars_ne_nil (cs : List Char) : splitColonChars cs ≠ [] := by
  cases cs with
  | nil => simp [splitColonChars]
  | cons c rest => simp [splitColonChars]; split <;> simp

theorem splitPath_ne_nil (p : String) : splitPath p ≠ [] := by
  unfold splitPath
  simp [splitColonChars_ne_nil]

theorem colon_not_mem_splitColonChars (cs : List Char) :
    ∀ g ∈ splitColonChars cs, ':' ∉ g := by
  induction cs with
  | nil => intro g hg; simp [splitColonChars] at hg; simp [hg]
  | cons c rest ih =>
    intro g hg
    rcases hh : splitColonChars rest with _ | ⟨g0, gs⟩
    · exact absurd hh (splitColonChars_ne_nil rest)
    · by_cases hc : c = ':'
      · simp only [splitColonChars, hc, if_pos rfl] at hg
        rcases List.mem_cons.1 hg with rfl | hg2
        · simp
        · exact ih g hg2
      · simp only [splitColonChars, if_neg hc, hh, List.headD_cons, List.tail_cons] at hg
        rcases List.mem_cons.1 hg with rfl | hg2
        · intro hmem
          rcases List.mem_cons.1 hmem with h | h
          · exact hc h.symm
          · exact ih g0 (by rw [hh]; exact List.mem_cons_self g0 gs) h
        · exact ih g (by rw [hh]; exact List.mem_cons_of_mem g0 hg2)

theorem splitColonChars_no_colon (g : List Char) (h : ':' ∉ g) :
    splitColonChars g = [g] := by
  induction g with
  | nil => rfl
  | cons c rest ih =>
    have hc : c ≠ ':' := fun hh => h (by simp [hh])
    have hr : ':' ∉ rest := fun hh => h (by simp [hh])
    simp [splitColonChars, hc, ih hr]

theorem splitColonChars_append (g t : List Char) (h : ':' ∉ g) :
    splitColonChars (g ++ ':' :: t) = g :: splitColonChars t := by
  induction g with
  | nil => simp [splitColonChars]
  | cons c rest ih =>
    have hc : c ≠ ':' := fun hh => h (by simp [hh])
    have hr : ':' ∉ rest := fun hh => h (by simp [hh])
    simp [splitColonChars, hc, ih hr]

theorem splitColonChars_join (gs : List (List Char)) (hne : gs ≠ [])
    (h : ∀ g ∈ gs, ':' ∉ g) : splitColonChars (joinColonChars gs) = gs := by
  induction gs with
  | nil => exact absurd rfl hne
  | cons g rest ih =>
    cases rest with
    | nil => simpa [joinColonChars] using splitColonChars_no_colon g (h g (by simp))
    | cons g2 rs =>
      have h1 : ':' ∉ g := h g (by simp)
      have h2 : ∀ x ∈ g2 :: rs, ':' ∉ x := fun x hx => h x (by simp [hx])
      simp only [joinColonChars]
      rw [splitColonChars_append g _ h1, ih (by simp) h2]

theorem splitPath_joinPath (parts : List String) (hne : parts ≠ [])
    (h : ∀ x ∈ parts, ':' ∉ x.data) : splitPath (joinPath parts) = parts := by
  unfold splitPath joinPath
  rw [show (String.mk (joinColonChars (parts.map String.data))).data
        = joinColonChars (parts.map String.data) from rfl]
  rw [splitColonChars_join (parts.map String.data)
    (by simpa using hne) (by intro g hg; rcases List.mem_map.1 hg with ⟨x, hx, rfl⟩; exact h x hx)]
  have hcomp : ((fun cs => String.mk cs) ∘ String.data) = id := by
    funext x; cases x; rfl
  rw [List.map_map, hcomp, List.map_id]

theorem mapGet_mapSet_self (m : List (String × α)) (k : String) (v : α) :
    mapGet (mapSet m k v) k = some v := by
  induction m with
  | nil => simp [mapSet, mapGet]
  | cons p rest ih =>
    by_cases h : p.1 = k
    · simp [mapSet, mapGet, h]
    · simp only [mapSet, mapGet] at *
      simp [h, ih]

theorem mapSet_eq_self (m : List (String × α)) (k : String) (v : α)
    (h : mapGet m k = some v) : mapSet m k v = m := by
  induction m with
  | nil => simp [mapGet] at h
  | cons p rest ih =>
    by_cases hk : p.1 = k
    · have hb : (p.1 == k) = true := by simpa using hk
      have hv : p.2 = v := by simpa [mapGet, List.find?, hb] using h
      have h2 : mapSet (p :: rest) k v = (k, v) :: rest := by simp [mapSet, hb]
      rw [h2, ← hk, ← hv]
    · have hb : (p.1 == k) = false := by simpa using hk
      have h' : mapGet rest k = some v := by simpa [mapGet, List.find?, hb] using h
      simp [mapSet, hb, ih h']

/-! Structural lemmas about stores. -/

theorem setEntry_storeEntries (s : Store) (k : String) (e : Entry) :
    (s.setEntry k e).storeEntries = mapSet s.storeEntries k e := by
  cases s; rfl

theorem setEntry_getPermission (s : Store) (k k' : String) (e : Entry) :
    (s.setEntry k e).getPermission k' = s.getPermission k' := by
  cases s; rfl

theorem setEntry_allowedToRead (s : Store) (k k' : String) (e : Entry) :
    (s.setEntry k e).allowedToRead k' = s.allowedToRead k' := by
  cases s; rfl

theorem setEntry_eq_self (s : Store) (k : String) (e : Entry)
    (h : mapGet s.storeEntries k = some e) : s.setEntry k e = s := by
  cases s with
  | mk d pm es sc =>
    have h2 : mapSet es k e = es := mapSet_eq_self _ _ _ h
    simp only [Store.setEntry, Store.withEntries, Store.storeEntries, h2]

/-! Error exits of the single-segment write actions leave the store as it
was: the permission check precedes the map update, and the composite
expansion attaches its fresh store only after all pair writes succeed. -/

theorem writeLeafDirect_err (e : Entry) (s : Store) (k : String) (er : StoreErr)
    (h : (writeLeafDirect e s k).2 = some er) : (writeLeafDirect e s k).1 = s := by
  cases hw : s.allowedToWrite k with
  | false => simp [writeLeafDirect, hw]
  | true => simp [writeLeafDirect, hw] at h

theorem writeLeafComposite_err (j : JSONValue) (s : Store) (k : String) (er : StoreErr)
    (h : (writeLeafComposite j s k).2 = some er) : (writeLeafComposite j s k).1 = s := by
  cases hw : s.allowedToWrite k with
  | false => simp [writeLeafComposite, hw]
  | true =>
    rcases hp : (writePairs s.createInstance (getAllPathFromJsonValue j [])).2 with _ | e2
    · rw [writeLeafComposite] at h
      simp [hw, hp] at h
    · simp [writeLeafComposite, hw, hp]

/-- Core of the atomicity argument: whenever the traversal returns an
error, the returned tree is the input tree — the only mutation points
(`setEntry`) run after the recursion below them has succeeded, and an
existing child written back after a failed recursion is, by induction,
itself unchanged. -/
theorem writeGo_err_eq (leaf : Store → String → Store × Option StoreErr)
    (hleaf : ∀ s k er, (leaf s k).2 = some er → (leaf s k).1 = s) :
    ∀ (parts : List String) (s : Store) (er : StoreErr),
      (writeGo leaf s parts).2 = some er → (writeGo leaf s parts).1 = s := by
  intro parts
  induction parts with
  | nil => intro s er h; simp [writeGo] at h
  | cons k rest ih =>
    intro s er h
    cases rest with
    | nil => exact hleaf s k er h
    | cons r0 rs =>
      rcases hm : mapGet s.storeEntries k with _ | e
      · cases hw : s.allowedToWrite k with
        | false => simp [writeGo, hm, hw]
        | true =>
          rcases hp : (writeGo leaf s.createInstance (r0 :: rs)).2 with _ | e2
          · simp [writeGo, hm, hw, hp] at h
          · simp [writeGo, hm, hw, hp]
      · rcases e with (p | _ | c) | r
        · cases hw : s.allowedToWrite k with
          | false => simp [writeGo, hm, hw]
          | true =>
            rcases hp : (writeGo leaf s.createInstance (r0 :: rs)).2 with _ | e2
            · simp [writeGo, hm, hw, hp] at h
            · simp [writeGo, hm, hw, hp]
        · cases hw : s.allowedToWrite k with
          | false => simp [writeGo, hm, hw]
          | true =>
            rcases hp : (writeGo leaf s.createInstance (r0 :: rs)).2 with _ | e2
            · simp [writeGo, hm, hw, hp] at h
            · simp [writeGo, hm, hw, hp]
        · have h2 : (writeGo leaf c (r0 :: rs)).2 = some er := by
            simpa [writeGo, hm] using h
          have h1 := ih c er h2
          simp only [writeGo, hm]
          rw [h1]
          exact setEntry_eq_self s k _ hm
        · cases hw : s.allowedToWrite k with
          | false => simp [writeGo, hm, hw]
          | true =>
            rcases hp : (writeGo leaf s.createInstance (r0 :: rs)).2 with _ | e2
            · simp [writeGo, hm, hw, hp] at h
            · simp [writeGo, hm, hw, hp]

/-- C8: for every store and value, `read(null)` and `write(null, v)` fail
with the invalid-path error, and the failed write returns the store exactly
as it was — the null check precedes any mutation. -/
theorem claim_C8_null_path (s : Store) (v : StoreValue) :
    Store.read s Option.none = .error (.invalidPath "Null path forbidden") ∧
    Store.write s Option.none v = (s, some (.invalidPath "Null path forbidden")) :=
  ⟨rfl, rfl⟩

/-- C6: writing any value to a single-segment key whose resolved policy is
read-only fails with the access-denied error and returns the store
unchanged (same entries, same permission overrides, same default policy). -/
theorem claim_C6_denied_write (s : Store) (k : String) (v : StoreValue)
    (hk : splitPath k = [k]) (hp : s.getPermission k = .r) :
    Store.write s (some k) v =
      (s, some (.accessDenied ("Write access denied for property: " ++ k))) := by
  have hw : s.allowedToWrite k = false := by
    unfold Store.allowedToWrite
    rw [hp]
    rfl
  show writeGo (leafFor v) s (splitPath k) = _
  rw [hk]
  cases v <;>
    simp [writeGo, leafFor, writeLeafDirect, writeLeafComposite, hw]

/-- Witness for C6 at a concrete store with an explicit read-only override. -/
theorem claim_C6_denied_write_witness :
    Store.write (Store.mk .rw [("k", .r)] [] baseSchema) (some "k") (.prim (.num 7)) =
      (Store.mk .rw [("k", .r)] [] baseSchema,
        some (.accessDenied ("Write access denied for property: " ++ "k"))) :=
  claim_C6_denied_write _ _ _ rfl rfl

/-- C10: if a write throws any error — null path, access denied at any
level, or a failure inside composite expansion — the returned tree equals
the input tree: nothing anywhere in it has changed. -/
theorem claim_C10_atomic_write (s : Store) (p : Option String) (v : StoreValue)
    (er : StoreErr) (h : (Store.write s p v).2 = some er) :
    (Store.write s p v).1 = s := by
  cases p with
  | none => rfl
  | some path =>
    have hleaf : ∀ s' k er', (leafFor v s' k).2 = some er' → (leafFor v s' k).1 = s' := by
      intro s' k er' h'
      cases v with
      | prim q => exact writeLeafDirect_err _ _ _ _ h'
      | undef => exact writeLeafDirect_err _ _ _ _ h'
      | store c => exact writeLeafDirect_err _ _ _ _ h'
      | func r => exact writeLeafDirect_err _ _ _ _ h'
      | obj fs => exact writeLeafComposite_err _ _ _ _ h'
      | arr xs => exact writeLeafComposite_err _ _ _ _ h'
    exact writeGo_err_eq (leafFor v) hleaf (splitPath path) s er h

/-- Witness for C10: a denied write on a read-only-by-default store throws
and leaves the store untouched. -/
theorem claim_C10_atomic_write_witness :
    (Store.write (Store.mk .r [] [] baseSchema) (some "a") (.prim (.num 5))).1 =
      Store.mk .r [] [] baseSchema ∧
    (Store.write (Store.mk .r [] [] baseSchema) (some "a") (.prim (.num 5))).2 =
      some (.accessDenied ("Write access denied for property: " ++ "a")) :=
  ⟨claim_C10_atomic_write _ _ _
      (.accessDenied ("Write access denied for property: " ++ "a")) rfl, rfl⟩

/-- C9 is refuted: a path that splits to an empty segment is not rejected.
On a fresh store, `write("", 5)` succeeds (no error), mutates the store
(the result differs from the input), and `read("")` then returns 5 — the
empty string is handled as an ordinary key. -/
theorem claim_C9_counterexample :
    (Store.write newStore (some "") (.prim (.num 5))).2 = Option.none ∧
    (Store.write newStore (some "") (.prim (.num 5))).1 ≠ newStore ∧
    Store.read (Store.write newStore (some "") (.prim (.num 5))).1 (some "") =
      .ok (.prim (.num 5)) := by
  refine ⟨rfl, ?_, rfl⟩
  intro h
  have h2 : ([("", Entry.val (.prim (.num 5)))] : List (String × Entry)) = [] :=
    congrArg Store.storeEntries h
  exact List.noConfusion h2

/-- C9 amended: path segments produced by the split may be empty strings and
are not rejected; read and write treat the empty string as an ordinary key,
so on any store whose policy lets the empty key be written, `write("", v)`
stores `v` under the key `""` and, when the empty key is also readable,
`read("")` returns it. -/
theorem claim_C9_amended (s : Store) (q : JSONPrimitive)
    (hw : s.allowedToWrite "" = true) :
    Store.write s (some "") (.prim q) = (s.setEntry "" (.val (.prim q)), Option.none) ∧
    (s.allowedToRead "" = true →
      Store.read (s.setEntry "" (.val (.prim q))) (some "") = .ok (.prim q)) := by
  constructor
  · show writeGo (leafFor (.prim q)) s (splitPath "") = _
    have hsp : splitPath "" = [""] := rfl
    rw [hsp]
    simp [writeGo, leafFor, writeLeafDirect, hw]
  · intro hr
    have hr' : (s.setEntry "" (.val (.prim q))).allowedToRead "" = true := by
      rw [setEntry_allowedToRead]
      exact hr
    have hm : mapGet (s.setEntry "" (.val (.prim q))).storeEntries "" =
        some (.val (.prim q)) := by
      rw [setEntry_storeEntries]
      exact mapGet_mapSet_self _ _ _
    show readGo (s.setEntry "" (.val (.prim q))) (splitPath "") = _
    have hsp : splitPath "" = [""] := rfl
    rw [hsp]
    simp [readGo, hr', hm]

/-- Witness for the amended C9 on a fresh store. -/
theorem claim_C9_amended_witness :
    Store.write newStore (some "") (.prim (.num 5)) =
      (newStore.setEntry "" (.val (.prim (.num 5))), Option.none) ∧
    Store.read (newStore.setEntry "" (.val (.prim (.num 5)))) (some "") =
      .ok (.prim (.num 5)) :=
  ⟨(claim_C9_amended newStore (.num 5) rfl).1, (claim_C9_amended newStore (.num 5) rfl).2 rfl⟩

/-- C5: when the head key of a multi-segment read resolves — directly or
through a deferred closure — to a child store, the read delegates to that
child on the remaining segments, and the outcome is the same whatever the
head store's default policy and permission overrides are: the head key's
own permission is never consulted. -/
theorem claim_C5_head_permission_ignored (s c : Store) (path k : String)
    (rest : List String) (hsplit : splitPath path = k :: rest) (hrest : rest ≠ [])
    (hc : resolvedChild s k = some c) :
    Store.read s (some path) = readGo c rest ∧
    ∀ (d' : Permission) (pm' : List (String × Permission)),
      Store.read (Store.mk d' pm' s.storeEntries s.schema) (some path) = readGo c rest := by
  cases rest with
  | nil => exact absurd rfl hrest
  | cons r0 rs =>
    unfold resolvedChild at hc
    constructor
    · show readGo s (splitPath path) = _
      rw [hsplit]
      rcases hm : mapGet s.storeEntries k with _ | e
      · rw [hm] at hc; exact Option.noConfusion hc
      · rcases e with (p | _ | c2) | (p | _ | c2) <;> rw [hm] at hc <;>
          first
          | exact Option.noConfusion hc
          | (injection hc with hc2; subst hc2; simp [readGo, hm])
    · intro d' pm'
      show readGo (Store.mk d' pm' s.storeEntries s.schema) (splitPath path) = _
      rw [hsplit]
      rcases hm : mapGet s.storeEntries k with _ | e
      · rw [hm] at hc; exact Option.noConfusion hc
      · rcases e with (p | _ | c2) | (p | _ | c2) <;> rw [hm] at hc <;>
          first
          | exact Option.noConfusion hc
          | (injection hc with hc2; subst hc2;
             simp [readGo, show mapGet (Store.mk d' pm' s.storeEntries s.schema).storeEntries k
               = mapGet s.storeEntries k from rfl, hm])

/-- Witness for C5: the head key has the policy none (read denied), yet the
multi-segment read still delegates to the child store under it. -/
theorem claim_C5_head_permission_ignored_witness :
    Store.read
        (Store.mk .rw [("kid", Permission.none)]
          [("kid", .val (.store (Store.mk .rw []
            [("leaf", .val (.prim (.num 9)))] baseSchema)))] baseSchema)
        (some "kid:leaf") =
      readGo (Store.mk .rw [] [("leaf", .val (.prim (.num 9)))] baseSchema) ["leaf"] :=
  (claim_C5_head_permission_ignored
    (Store.mk .rw [("kid", Permission.none)]
      [("kid", .val (.store (Store.mk .rw []
        [("leaf", .val (.prim (.num 9)))] baseSchema)))] baseSchema)
    (Store.mk .rw [] [("leaf", .val (.prim (.num 9)))] baseSchema)
    "kid:leaf" "kid" ["leaf"] rfl
    (by intro h; exact List.noConfusion h) rfl).1

/-- C7: a multi-segment read whose head entry is neither a child store nor
a deferred value yielding a child store fails with the invalid-path error
(the source's message for a traversal into a non-store). -/
theorem claim_C7_invalid_traversal (s : Store) (path k : String) (rest : List String)
    (hsplit : splitPath path = k :: rest) (hrest : rest ≠ [])
    (hhead : resolvedChild s k = Option.none) :
    Store.read s (some path) = .error (.invalidPath "The path given is incorrect") := by
  cases rest with
  | nil => exact absurd rfl hrest
  | cons r0 rs =>
    unfold resolvedChild at hhead
    show readGo s (splitPath path) = _
    rw [hsplit]
    rcases hm : mapGet s.storeEntries k with _ | e
    · simp [readGo, hm]
    · rw [hm] at hhead
      rcases e with (p | _ | c2) | (p | _ | c2) <;>
        first
        | exact Option.noConfusion hhead
        | simp [readGo, hm]

/-- Witness for C7, realising the claim's concrete example: after
`write("a", 1)` on a fresh store, `read("a:b")` fails with the
invalid-path error. -/
theorem claim_C7_invalid_traversal_witness :
    Store.read (Store.write newStore (some "a") (.prim (.num 1))).1 (some "a:b") =
      .error (.invalidPath "The path given is incorrect") :=
  claim_C7_invalid_traversal (Store.write newStore (some "a") (.prim (.num 1))).1
    "a:b" "a" ["b"] rfl (by intro h; exact List.noConfusion h) rfl

/-! Step lemmas for the write traversal, phrased through `childAfter`. -/

theorem childAfter_of_store (s : Store) (k : String) (c : Store)
    (hm : mapGet s.storeEntries k = some (.val (.store c))) :
    childAfter s k = c := by
  simp [childAfter, hm]

theorem childAfter_of_not_store (s : Store) (k : String)
    (hnc : ∀ c, mapGet s.storeEntries k ≠ some (.val (.store c))) :
    childAfter s k = s.createInstance := by
  unfold childAfter
  rcases hm : mapGet s.storeEntries k with _ | e
  · rfl
  · rcases e with (p | _ | c) | r
    · rfl
    · rfl
    · exact absurd hm (hnc c)
    · rfl

theorem writeGo_step_child (leaf : Store → String → Store × Option StoreErr)
    (s c : Store) (k r0 : String) (rs : List String)
    (hm : mapGet s.storeEntries k = some (.val (.store c))) :
    writeGo leaf s (k :: r0 :: rs) =
      (s.setEntry k (.val (.store (writeGo leaf c (r0 :: rs)).1)),
        (writeGo leaf c (r0 :: rs)).2) := by
  simp [writeGo, hm]

theorem writeGo_step_fresh_ok (leaf : Store → String → Store × Option StoreErr)
    (s : Store) (k r0 : String) (rs : List String)
    (hnc : ∀ c, mapGet s.storeEntries k ≠ some (.val (.store c)))
    (hw1 : s.allowedToWrite k = true)
    (hok : (writeGo leaf s.createInstance (r0 :: rs)).2 = Option.none) :
    writeGo leaf s (k :: r0 :: rs) =
      (s.setEntry k (.val (.store (writeGo leaf s.createInstance (r0 :: rs)).1)),
        Option.none) := by
  rcases hm : mapGet s.storeEntries k with _ | e
  · simp [writeGo, hm, hw1, hok]
  · rcases e with (p | _ | c) | r
    · simp [writeGo, hm, hw1, hok]
    · simp [writeGo, hm, hw1, hok]
    · exact absurd hm (hnc c)
    · simp [writeGo, hm, hw1, hok]

theorem readGo_setEntry_store (s c : Store) (k r0 : String) (rs : List String) :
    readGo (s.setEntry k (.val (.store c))) (k :: r0 :: rs) = readGo c (r0 :: rs) := by
  have hm : mapGet (s.setEntry k (.val (.store c))).storeEntries k =
      some (.val (.store c)) := by
    rw [setEntry_storeEntries]
    exact mapGet_mapSet_self _ _ _
  simp [readGo, hm]

/-- Round trip along a segment list: when every consulted segment is
writable and the terminal segment is readable at the terminal store of the
descent, the write succeeds and reading the same segments returns exactly
the written primitive. -/
theorem roundTripAux (q : JSONPrimitive) :
    ∀ (parts : List String) (s : Store),
      parts ≠ [] → writableAlong s parts = true → readableAtEnd s parts = true →
      (writeGo (writeLeafDirect (.val (.prim q))) s parts).2 = Option.none ∧
      readGo (writeGo (writeLeafDirect (.val (.prim q))) s parts).1 parts =
        .ok (.prim q) := by
  intro parts
  induction parts with
  | nil => intro s hne _ _; exact absurd rfl hne
  | cons k rest ih =>
    intro s _ hw hr
    cases rest with
    | nil =>
      have hwk : s.allowedToWrite k = true := by simpa [writableAlong] using hw
      have hrk : s.allowedToRead k = true := by simpa [readableAtEnd] using hr
      have hr' : (s.setEntry k (.val (.prim q))).allowedToRead k = true := by
        rw [setEntry_allowedToRead]
        exact hrk
      have hm : mapGet (s.setEntry k (.val (.prim q))).storeEntries k =
          some (.val (.prim q)) := by
        rw [setEntry_storeEntries]
        exact mapGet_mapSet_self _ _ _
      constructor
      · simp [writeGo, writeLeafDirect, hwk]
      · simp [writeGo, writeLeafDirect, hwk, readGo, hr', hm]
    | cons r0 rs =>
      have hw' : s.allowedToWrite k = true ∧
          writableAlong (childAfter s k) (r0 :: rs) = true := by
        simpa [writableAlong, Bool.and_eq_true] using hw
      have hr2 : readableAtEnd (childAfter s k) (r0 :: rs) = true := by
        simpa [readableAtEnd] using hr
      by_cases hex : ∃ c, mapGet s.storeEntries k = some (.val (.store c))
      · rcases hex with ⟨c, hm⟩
        have hca := childAfter_of_store s k c hm
        rcases ih c (by simp) (hca ▸ hw'.2) (hca ▸ hr2) with ⟨ih1, ih2⟩
        rw [writeGo_step_child _ s c k r0 rs hm]
        exact ⟨ih1, by rw [readGo_setEntry_store]; exact ih2⟩
      · push_neg at hex
        have hca := childAfter_of_not_store s k hex
        rcases ih s.createInstance (by simp) (hca ▸ hw'.2) (hca ▸ hr2) with ⟨ih1, ih2⟩
        rw [writeGo_step_fresh_ok _ s k r0 rs hex hw'.1 ih1]
        exact ⟨rfl, by rw [readGo_setEntry_store]; exact ih2⟩

/-- C1: for every primitive value and every path all of whose segments are
writable along the descent, with the terminal segment readable at the
terminal store, `write(p, v)` succeeds and `read(p)` then returns exactly
`v`. -/
theorem claim_C1_round_trip (s : Store) (path : String) (q : JSONPrimitive)
    (hw : writableAlong s (splitPath path) = true)
    (hr : readableAtEnd s (splitPath path) = true) :
    (Store.write s (some path) (.prim q)).2 = Option.none ∧
    Store.read (Store.write s (some path) (.prim q)).1 (some path) = .ok (.prim q) :=
  roundTripAux q (splitPath path) s (splitPath_ne_nil path) hw hr

/-- Witness for C1 on a fresh store and the two-segment path a:b. -/
theorem claim_C1_round_trip_witness :
    (Store.write newStore (some "a:b") (.prim (.str "v"))).2 = Option.none ∧
    Store.read (Store.write newStore (some "a:b") (.prim (.str "v"))).1 (some "a:b") =
      .ok (.prim (.str "v")) :=
  claim_C1_round_trip newStore "a:b" (.str "v") rfl rfl

/-- C3: composite expansion — on a fresh store, writing the object
`{b: 1, c: [2, 3]}` under the key a stores a fresh child store under a
populated from the flattened leaf paths (b, c:0, c:1, colon-joined object
keys and decimal array indices), after which the three leaf reads return
1, 2 and 3; the asserted result tree makes the expansion explicit, and the
final conjunct pins down the flattening itself. -/
theorem claim_C3_composite_expansion :
    Store.write newStore (some "a")
        (.obj [("b", .prim (.num 1)), ("c", .arr [.prim (.num 2), .prim (.num 3)])]) =
      (Store.mk .rw [] [("a", .val (.store (Store.mk .rw []
          [("b", .val (.prim (.num 1))),
           ("c", .val (.store (Store.mk .rw []
             [("0", .val (.prim (.num 2))), ("1", .val (.prim (.num 3)))] baseSchema)))]
          baseSchema)))] baseSchema, Option.none) ∧
    Store.read (Store.write newStore (some "a")
        (.obj [("b", .prim (.num 1)), ("c", .arr [.prim (.num 2), .prim (.num 3)])])).1
      (some "a:b") = .ok (.prim (.num 1)) ∧
    Store.read (Store.write newStore (some "a")
        (.obj [("b", .prim (.num 1)), ("c", .arr [.prim (.num 2), .prim (.num 3)])])).1
      (some "a:c:0") = .ok (.prim (.num 2)) ∧
    Store.read (Store.write newStore (some "a")
        (.obj [("b", .prim (.num 1)), ("c", .arr [.prim (.num 2), .prim (.num 3)])])).1
      (some "a:c:1") = .ok (.prim (.num 3)) ∧
    getAllPathFromJsonValue
        (.obj [("b", .prim (.num 1)), ("c", .arr [.prim (.num 2), .prim (.num 3)])]) [] =
      [("b", .num 1), ("c:0", .num 2), ("c:1", .num 3)] :=
  ⟨rfl, rfl, rfl, rfl, rfl⟩

/-- C4: auto-vivification — on an empty base-class store whose default
policy allows write, `write("x:y:z", 5)` succeeds, creating intermediate
child stores under x and x:y whose default policy is read-write (visible
in the asserted result tree), and `read("x:y:z")` then returns 5. -/
theorem claim_C4_auto_vivification (d : Permission) (hw : includesW d = true) :
    Store.write (Store.mk d [] [] baseSchema) (some "x:y:z") (.prim (.num 5)) =
      (Store.mk d [] [("x", .val (.store (Store.mk .rw []
          [("y", .val (.store (Store.mk .rw []
            [("z", .val (.prim (.num 5)))] baseSchema)))] baseSchema)))] baseSchema,
        Option.none) ∧
    Store.read (Store.write (Store.mk d [] [] baseSchema) (some "x:y:z")
        (.prim (.num 5))).1 (some "x:y:z") = .ok (.prim (.num 5)) := by
  cases d with
  | r => exact absurd hw (by decide)
  | w => exact ⟨rfl, rfl⟩
  | rw => exact ⟨rfl, rfl⟩
  | none => exact absurd hw (by decide)

/-- Witness for C4 with the default read-write root policy. -/
theorem claim_C4_auto_vivification_witness :
    Store.write (Store.mk .rw [] [] baseSchema) (some "x:y:z") (.prim (.num 5)) =
      (Store.mk .rw [] [("x", .val (.store (Store.mk .rw []
          [("y", .val (.store (Store.mk .rw []
            [("z", .val (.prim (.num 5)))] baseSchema)))] baseSchema)))] baseSchema,
        Option.none) ∧
    Store.read (Store.write (Store.mk .rw [] [] baseSchema) (some "x:y:z")
        (.prim (.num 5))).1 (some "x:y:z") = .ok (.prim (.num 5)) :=
  claim_C4_auto_vivification .rw rfl

/-! Lookup characterization of `entries()`. -/

theorem entriesList_not_mem (d : Permission) (pm : List (String × Permission)) :
    ∀ (es : List (String × Entry)) (k : String),
      k ∉ es.map Prod.fst → mapGet (entriesList d pm es) k = Option.none := by
  intro es
  induction es with
  | nil => intro k _; rfl
  | cons p rest ih =>
    intro k hk
    rcases p with ⟨k0, e⟩
    have hk0 : (k0 == k) = false := by
      simp only [List.map_cons, List.mem_cons] at hk
      simpa using fun h => hk (Or.inl h.symm)
    have hkr : k ∉ rest.map Prod.fst := by
      simp only [List.map_cons, List.mem_cons] at hk
      exact fun h => hk (Or.inr h)
    by_cases ha : includesR ((mapGet pm k0).getD d) = true
    · rcases ho : entryOut e with _ | jv
      · rw [show entriesList d pm ((k0, e) :: rest) = entriesList d pm rest by
          simp [entriesList, ha, ho]]
        exact ih k hkr
      · rw [show entriesList d pm ((k0, e) :: rest) =
            (k0, jv) :: entriesList d pm rest by simp [entriesList, ha, ho]]
        rw [show mapGet ((k0, jv) :: entriesList d pm rest) k =
            mapGet (entriesList d pm rest) k by simp [mapGet, List.find?, hk0]]
        exact ih k hkr
    · rw [show entriesList d pm ((k0, e) :: rest) = entriesList d pm rest by
        simp [entriesList, ha]]
      exact ih k hkr

theorem entriesList_lookup (d : Permission) (pm : List (String × Permission)) :
    ∀ (es : List (String × Entry)) (k : String), (es.map Prod.fst).Nodup →
      mapGet (entriesList d pm es) k =
        if includesR ((mapGet pm k).getD d) = true
        then Option.bind (mapGet es k) entryOut
        else Option.none := by
  intro es
  induction es with
  | nil => intro k _; simp [entriesList, mapGet]
  | cons p rest ih =>
    intro k hnd
    rcases p with ⟨k0, e⟩
    simp only [List.map_cons, List.nodup_cons] at hnd
    by_cases hk : k0 = k
    · subst hk
      have hme : mapGet ((k0, e) :: rest) k0 = some e := by
        simp [mapGet, List.find?]
      by_cases ha : includesR ((mapGet pm k0).getD d) = true
      · rcases ho : entryOut e with _ | jv
        · rw [show entriesList d pm ((k0, e) :: rest) = entriesList d pm rest by
            simp [entriesList, ha, ho]]
          rw [entriesList_not_mem d pm rest k0 hnd.1, hme, ha]
          simp [ho]
        · rw [show entriesList d pm ((k0, e) :: rest) =
              (k0, jv) :: entriesList d pm rest by simp [entriesList, ha, ho]]
          rw [hme, if_pos ha]
          simp [mapGet, List.find?, ho]
      · rw [show entriesList d pm ((k0, e) :: rest) = entriesList d pm rest by
            simp [entriesList, ha]]
        rw [entriesList_not_mem d pm rest k0 hnd.1, if_neg ha]
    · have hbeq : (k0 == k) = false := by simpa using hk
      have hrest := ih k hnd.2
      have hskip : mapGet ((k0, e) :: rest) k = mapGet rest k := by
        simp [mapGet, List.find?, hbeq]
      by_cases ha : includesR ((mapGet pm k0).getD d) = true
      · rcases ho : entryOut e with _ | jv
        · rw [show entriesList d pm ((k0, e) :: rest) = entriesList d pm rest by
            simp [entriesList, ha, ho]]
          rw [hrest, hskip]
        · rw [show entriesList d pm ((k0, e) :: rest) =
              (k0, jv) :: entriesList d pm rest by simp [entriesList, ha, ho]]
          rw [show mapGet ((k0, jv) :: entriesList d pm rest) k =
              mapGet (entriesList d pm rest) k by simp [mapGet, List.find?, hbeq]]
          rw [hrest, hskip]
      · rw [show entriesList d pm ((k0, e) :: rest) = entriesList d pm rest by
            simp [entriesList, ha]]
        rw [hrest, hskip]

/-- C2 is refuted: `entries()` does not include every readable key holding a
non-absent primitive. On a store whose key a is readable and holds the
non-absent primitive 0, the output is empty — the `else if (value)` guard
of the source skips every falsy primitive (0, false, the empty string, and
null), not only absent values. -/
theorem claim_C2_counterexample :
    (Store.mk .rw [] [("a", .val (.prim (.num 0)))] baseSchema).allowedToRead "a"
      = true ∧
    mapGet (Store.mk .rw [] [("a", .val (.prim (.num 0)))] baseSchema).storeEntries "a"
      = some (.val (.prim (.num 0))) ∧
    Store.entries (Store.mk .rw [] [("a", .val (.prim (.num 0)))] baseSchema) = [] :=
  ⟨rfl, rfl, rfl⟩

/-- C2 amended: for every store (with the no-duplicate key map of a real
JS `Map`), looking up any key in `entries()` gives: nothing when the
store's own policy denies reading the key, else exactly the output of the
per-entry serialization — a truthy primitive is kept (directly or from an
invoked deferred value), a falsy or absent value is omitted, and a child
store contributes its own recursively self-filtered `entries()`, so the
policy filter is re-evaluated independently at every level of nesting. -/
theorem claim_C2_entries_lookup (s : Store) (k : String)
    (hnd : (s.storeEntries.map Prod.fst).Nodup) :
    mapGet s.entries k =
      if s.allowedToRead k = true
      then Option.bind (mapGet s.storeEntries k) entryOut
      else Option.none := by
  cases s with
  | mk d pm es sc => exact entriesList_lookup d pm es k hnd

/-- Witness for the amended C2 on a store mixing a falsy primitive, a
truthy primitive, and a write-only key. -/
theorem claim_C2_entries_lookup_witness :
    mapGet (Store.entries (Store.mk .rw [("c", .w)]
        [("a", .val (.prim (.num 0))), ("b", .val (.prim (.num 7))),
         ("c", .val (.prim (.num 1)))] baseSchema)) "b" =
      if (Store.mk .rw [("c", .w)]
          [("a", .val (.prim (.num 0))), ("b", .val (.prim (.num 7))),
           ("c", .val (.prim (.num 1)))] baseSchema).allowedToRead "b" = true
      then Option.bind (mapGet (Store.mk .rw [("c", .w)]
          [("a", .val (.prim (.num 0))), ("b", .val (.prim (.num 7))),
           ("c", .val (.prim (.num 1)))] baseSchema).storeEntries "b") entryOut
      else Option.none :=
  claim_C2_entries_lookup _ "b" (by decide)
